import Mathlib

/-!
Verification of the xml2js conversion algorithm (src/xml2js.py).

The source converts a parsed XML node tree into a JSON-compatible value in
either a verbose shape or a compact shape.  We shallowly embed:
  - the node interface the code consumes from lxml: tag, ordered attribute
    mapping, ordered direct text runs, the raw serialized form of the node
    as returned by tostring, and the ordered children sequence;
  - ordered mappings (Python OrderedDict) as association lists with
    insertion-order update semantics;
  - functions that return caught exceptions as Except values.
-/

namespace Xml2JS

/-- JSON-compatible output values.  Python OrderedDict becomes an ordered
association list, Python list becomes arr, str becomes str.  The exn
constructor models a caught Exception object that the source code embeds
into an output list (verbose leaf path, line 151 of src/xml2js.py). -/
inductive JValue : Type where
  | str (s : String)
  | arr (xs : List JValue)
  | obj (fields : List (String × JValue))
  | exn (msg : String)

/-- An ordered mapping, Python OrderedDict with string keys. -/
abbrev JObj := List (String × JValue)

/-- The XML node interface used by the code: lxml _Element (tag, attrib,
direct text runs in document order, serialized form, children including
comment and processing-instruction nodes), _Comment (text), and
_ProcessingInstruction (serialized form and attrib). -/
inductive XmlNode : Type where
  | elem (tag : String) (attrib : List (String × String)) (textRuns : List String)
      (raw : String) (children : List XmlNode)
  | comment (text : String)
  | pi (raw : String) (attrib : List (String × String))

/-- element.getchildren(): comments and PIs have no children. -/
def getchildren : XmlNode → List XmlNode
  | .elem _ _ _ _ cs => cs
  | .comment _ => []
  | .pi _ _ => []

/-- element.tag.  For comment and PI nodes lxml yields a non-string
sentinel; the code only reads tag on paths where the node has children,
so those nodes never use this value and we return the empty string. -/
def tagOf : XmlNode → String
  | .elem t _ _ _ _ => t
  | .comment _ => ""
  | .pi _ _ => ""

/-- element.attrib as an ordered list of name-value pairs. -/
def attribOf : XmlNode → List (String × String)
  | .elem _ a _ _ _ => a
  | .comment _ => []
  | .pi _ a => a

/-- element.xpath applied to the text selector: the direct text runs. -/
def textRunsOf : XmlNode → List String
  | .elem _ _ r _ _ => r
  | .comment _ => []
  | .pi _ _ => []

/-- tostring(element).decode(): the raw serialized form of the node. -/
def rawOf : XmlNode → String
  | .elem _ _ _ w _ => w
  | .comment t => "<!--" ++ t ++ "-->"
  | .pi w _ => w

/-- Ordered-dict lookup: first binding of the key. -/
def objGet (o : JObj) (k : String) : Option JValue :=
  match o with
  | [] => none
  | (k2, v) :: rest => if k2 = k then some v else objGet rest k

/-- Ordered-dict single-key assignment: replace in place if the key is
present, otherwise append at the end (Python dict semantics). -/
def objSet (o : JObj) (k : String) (v : JValue) : JObj :=
  match o with
  | [] => [(k, v)]
  | (k2, v2) :: rest => if k2 = k then (k, v) :: rest else (k2, v2) :: objSet rest k v

/-- Python dict.update: assign every binding of the argument in order. -/
def objUpdate (o u : JObj) : JObj :=
  u.foldl (fun acc p => objSet acc p.1 p.2) o

/-- Attributes as a JSON object (OrderedDict(element.attrib)). -/
def attribToObj (a : List (String × String)) : JObj :=
  a.map (fun p => (p.1, JValue.str p.2))

/-- Does the list start with the pattern. -/
def startsWithList : List Char → List Char → Bool
  | _, [] => true
  | [], _ :: _ => false
  | c :: cs, p :: ps => c == p && startsWithList cs ps

/-- Substring containment on char lists (Python membership test on str). -/
def containsList (hay pat : List Char) : Bool :=
  match hay with
  | [] => startsWithList [] pat
  | c :: rest => startsWithList (c :: rest) pat || containsList rest pat

/-- Python substring membership test. -/
def strContains (hay pat : String) : Bool :=
  containsList hay.data pat.data

/-- Python str.strip with no arguments: remove leading and trailing
whitespace.  Defined structurally over the character list. -/
def pyStrip (s : String) : String :=
  String.mk (((s.data.dropWhile Char.isWhitespace).reverse.dropWhile Char.isWhitespace).reverse)

/-- xml_text lines 25-27: strip every direct text run, and when
remove_blank_text is set drop the runs that stripped to the empty string
(Python string truthiness: keep the run when it is nonempty). -/
def xml_text_runs (e : XmlNode) (remove_blank_text : Bool) : List String :=
  let stripped := (textRunsOf e).map pyStrip
  if remove_blank_text then stripped.filter (fun t => !t.data.isEmpty) else stripped

/-- xml_text line 30: a run is CDATA when strip_cdata is off and the
serialized element contains the CDATA marker wrapping the stripped text. -/
def isCdata (e : XmlNode) (strip_cdata : Bool) (text : String) : Bool :=
  if strip_cdata then false
  else strContains (rawOf e) ("![CDATA[" ++ text ++ "]]")

/-- xml_text loop, compact branch: distribute the runs over the _cdata
bucket and the _text bucket, preserving run order inside each bucket. -/
def cdataTextSplit (e : XmlNode) (strip_cdata : Bool) : List String → List String × List String
  | [] => ([], [])
  | t :: rest =>
      let p := cdataTextSplit e strip_cdata rest
      if isCdata e strip_cdata t then (t :: p.1, p.2) else (p.1, t :: p.2)

/-- xml_text lines 45-50: a single-run bucket collapses to a scalar. -/
def collapseRuns (ts : List String) : JValue :=
  match ts with
  | [t] => JValue.str t
  | _ => JValue.arr (ts.map JValue.str)

/-- xml_text with compact=True: optional _cdata and _text fields, in that
order, each omitted when its bucket is empty; None (modelled as none)
when no run survived. -/
def xml_text_compact (e : XmlNode) (strip_cdata remove_blank_text : Bool) : Option JObj :=
  let runs := xml_text_runs e remove_blank_text
  let p := cdataTextSplit e strip_cdata runs
  let o1 : JObj := if p.1.isEmpty then [] else [("_cdata", collapseRuns p.1)]
  let o2 : JObj := if p.2.isEmpty then [] else [("_text", collapseRuns p.2)]
  if runs.isEmpty then none else some (o1 ++ o2)

/-- Verbose text record. -/
def textRecord (t : String) : JValue :=
  JValue.obj [("type", JValue.str "text"), ("text", JValue.str t)]

/-- Verbose CDATA record. -/
def cdataRecord (t : String) : JValue :=
  JValue.obj [("type", JValue.str "cdata"), ("cdata", JValue.str t)]

/-- xml_text with compact=False: one record per surviving run, in run
order; None (modelled as none) when no run survived. -/
def xml_text_verbose (e : XmlNode) (strip_cdata remove_blank_text : Bool) : Option (List JValue) :=
  let runs := xml_text_runs e remove_blank_text
  let items := runs.map (fun t => if isCdata e strip_cdata t then cdataRecord t else textRecord t)
  if runs.isEmpty then none else some items

/-- Maximal run of non-whitespace characters at the front. -/
def takeNonWs (cs : List Char) : List Char :=
  cs.takeWhile (fun c => !c.isWhitespace)

/-- leafelement line 71: leftmost match of the pattern consisting of a
question-marked opening angle bracket followed by one or more
non-whitespace characters, returning the matched characters.  When the
two marker characters are followed by whitespace the scan resumes one
position later, at the question mark; no match can start there (a match
needs the opening angle bracket), so the scan equivalently resumes
after both marker characters, keeping the recursion structural. -/
def piNameMatch : List Char → Option (List Char)
  | '<' :: '?' :: rest =>
      let run := takeNonWs rest
      if run.isEmpty then piNameMatch rest else some ('<' :: '?' :: run)
  | _ :: rest => piNameMatch rest
  | [] => none

/-- leafelement line 72: delete every occurrence of the two-character
question-marked opening bracket from the matched text. -/
def removeLtQm : List Char → List Char
  | '<' :: '?' :: rest => removeLtQm rest
  | c :: rest => c :: removeLtQm rest
  | [] => []

/-- The PI target name as the code extracts it; empty when no match. -/
def piName (s : String) : String :=
  match piNameMatch s.data with
  | some m => String.mk (removeLtQm m)
  | none => ""

/-- The serialized PI without the trailing two-character close marker,
when it ends with that marker. -/
def piBody (s : String) : Option (List Char) :=
  let cs := s.data
  if cs.length ≥ 2 && cs.drop (cs.length - 2) == ['?', '>'] then
    some (cs.take (cs.length - 2))
  else none

/-- The characters after the last literal space, when a space occurs. -/
def afterLastSpace : List Char → Option (List Char)
  | [] => none
  | c :: rest =>
      match afterLastSpace rest with
      | some seg => some seg
      | none => if c == ' ' then some rest else none

/-- One or more characters, none of which is an equals sign or
whitespace: the run the instruction-body pattern accepts. -/
def cleanRun (seg : List Char) : Bool :=
  !seg.isEmpty && seg.all (fun c => c != '=' && !c.isWhitespace)

/-- leafelement line 73: the trailing pattern (a literal space, a run of
non-equals non-whitespace characters, then the close marker at the end).
The match exists exactly when the serialization ends with the close
marker and the segment between the last literal space and that marker is
nonempty and free of equals signs and whitespace. -/
def piInstructionMatch (s : String) : Option (List Char) :=
  match piBody s with
  | none => none
  | some body =>
      match afterLastSpace body with
      | none => none
      | some seg => if cleanRun seg then some seg else none

/-- leafelement line 74: the instruction body; empty when no match. -/
def piInstruction (s : String) : String :=
  match piInstructionMatch s with
  | some seg => String.mk seg
  | none => ""

/-- The message of the LevelError raised (and then caught and returned)
by leafelement when the node still has children. -/
def levelErrorMsg : String :=
  "LevelError: The element is not at the lowest level."

/-- leafelement lines 92-97 and parseelement lines 132-136: the compact
per-element container before children are merged, holding the optional
_attributes field and the optional text fields. -/
def compactContainer0 (attributes : List (String × String)) (text_output : Option JObj) : JObj :=
  let c1 : JObj :=
    if attributes.isEmpty then []
    else objUpdate [] [("_attributes", JValue.obj (attribToObj attributes))]
  match text_output with
  | some t => if t.isEmpty then c1 else objUpdate c1 t
  | none => c1

/-- parseelement lines 153-155 (and leafelement lines 99-101): the
verbose wrapper record with type, name and the optional attributes. -/
def verboseWrapper0 (tag : String) (attributes : List (String × String)) : JObj :=
  let o0 : JObj := [("type", JValue.str "element"), ("name", JValue.str tag)]
  if attributes.isEmpty then o0
  else objUpdate o0 [("attributes", JValue.obj (attribToObj attributes))]

/-- leafelement lines 98-103: the verbose leaf element record, with the
optional elements field holding the text records. -/
def verboseLeafBase (tag : String) (attributes : List (String × String))
    (text_output : Option (List JValue)) : JObj :=
  let o1 := verboseWrapper0 tag attributes
  match text_output with
  | some l => if l.isEmpty then o1 else objUpdate o1 [("elements", JValue.arr l)]
  | none => o1

/-- leafelement (src/xml2js.py lines 57-108).  The source wraps the body
in try/except and returns the caught exception, so failures appear as
returned error values: we model the function as Except-valued.  The
children check precedes the kind dispatch. -/
def leafelement (element : XmlNode) (strip_cdata compact remove_blank_text : Bool) :
    Except String JObj :=
  if !(getchildren element).isEmpty then
    Except.error levelErrorMsg
  else
    match element with
    | .pi raw attrib =>
        let instruction := piInstruction raw
        let base : JObj :=
          if compact then [("_instruction", JValue.obj [("name", JValue.str instruction)])]
          else [("type", JValue.str "instruction"), ("name", JValue.str (piName raw)),
                ("instruction", JValue.str instruction)]
        Except.ok (if attrib.isEmpty then base
          else objUpdate base [("attributes", JValue.obj (attribToObj attrib))])
    | .comment text =>
        Except.ok (if compact then [("_comment", JValue.str text)]
          else [("type", JValue.str "comment"), ("comment", JValue.str text)])
    | .elem tag attrib _ _ _ =>
        if compact then
          Except.ok [(tag, JValue.obj
            (compactContainer0 attrib (xml_text_compact element strip_cdata remove_blank_text)))]
        else
          Except.ok (verboseLeafBase tag attrib
            (xml_text_verbose element strip_cdata remove_blank_text))

/-- Python list promotion in parseelement lines 141-142: when the
existing value is not a list, wrap it in a one-element list. -/
def promoteList (v : JValue) : List JValue :=
  match v with
  | JValue.arr l => l
  | w => [w]

/-- Is the value a sequence. -/
def isArrB (v : JValue) : Bool :=
  match v with
  | JValue.arr _ => true
  | _ => false

/-- parseelement lines 139-145: merge one child conversion into the
compact container.  The first key of the child conversion is looked up;
when present its value is promoted to a sequence and the child value
under that key is appended, otherwise the whole child conversion is
inserted.  An empty child conversion would make the Python subscript of
the key list fail, returned as an error value. -/
def compactMerge (container : JObj) (update_info : JObj) : Except String JObj :=
  match update_info with
  | [] => Except.error "IndexError: list index out of range"
  | (key, v0) :: _ =>
      match objGet container key with
      | some existing =>
          Except.ok (objSet container key (JValue.arr (promoteList existing ++ [v0])))
      | none => Except.ok (objUpdate container update_info)

/-- parseelement line 128: the compact declaration envelope under header. -/
def compactHeader (header : Bool) : JObj :=
  if header then
    [("_declaration", JValue.obj [("_attributes", JValue.obj
      [("version", JValue.str "1.0"), ("encoding", JValue.str "ISO-8859-1")])])]
  else []

/-- parseelement line 148: the verbose declaration envelope under header. -/
def verboseHeader (header : Bool) : JObj :=
  if header then
    [("declaration", JValue.obj [("attributes", JValue.obj
      [("version", JValue.str "1.0"), ("encoding", JValue.str "ISO-8859-1")])])]
  else []

/-- parseelement lines 157-158: the wrapper elements sequence is seeded
with the text records when the text output is truthy. -/
def verboseTextSeed (text_output : Option (List JValue)) : List JValue :=
  match text_output with
  | some l => if l.isEmpty then [] else l
  | none => []

theorem sizeOf_getchildren_lt (e : XmlNode) (h : (getchildren e).isEmpty = false) :
    sizeOf (getchildren e) < sizeOf e := by
  cases e with
  | elem t a r w cs => simp [getchildren]
  | comment s => simp [getchildren] at h
  | pi w a => simp [getchildren] at h

mutual

/-- parseelement (src/xml2js.py lines 111-163).  Caught exceptions become
error values.  The recursive calls on children (lines 138 and 160) and
the leafelement calls (lines 130 and 151) pass positional arguments
only, so remove_blank_text is left at its default of true there. -/
def parseelement (element : XmlNode) (strip_cdata header compact remove_blank_text : Bool) :
    Except String JObj :=
  let tag := tagOf element
  let attributes := attribOf element
  if compact then
    let output0 := compactHeader header
    if _h : (getchildren element).isEmpty then
      match leafelement element strip_cdata compact true with
      | Except.ok v => Except.ok (objUpdate output0 v)
      | Except.error e => Except.error e
    else
      let container2 := compactContainer0 attributes
        (xml_text_compact element strip_cdata remove_blank_text)
      match parseChildrenCompact strip_cdata container2 (getchildren element) with
      | Except.ok c => Except.ok (objSet output0 tag (JValue.obj c))
      | Except.error e => Except.error e
  else
    let output0 := verboseHeader header
    if _h : (getchildren element).isEmpty then
      let leafv : JValue :=
        match leafelement element strip_cdata compact true with
        | Except.ok v => JValue.obj v
        | Except.error e => JValue.exn e
      Except.ok (objUpdate output0 [("elements", JValue.arr [leafv])])
    else
      let seed := verboseTextSeed (xml_text_verbose element strip_cdata remove_blank_text)
      match parseChildrenVerbose strip_cdata (getchildren element) with
      | Except.ok childEls =>
          let wrapper2 := objUpdate (verboseWrapper0 tag attributes)
            [("elements", JValue.arr (seed ++ childEls))]
          Except.ok (objUpdate output0 [("elements", JValue.arr [JValue.obj wrapper2])])
      | Except.error e => Except.error e
termination_by sizeOf element
decreasing_by
  all_goals simp_wf
  all_goals (apply sizeOf_getchildren_lt; simp_all)

/-- parseelement lines 137-145: the compact child loop, threading the
container through the merges; a failed recursive conversion propagates
(subscripting the exception object raises, caught by the caller). -/
def parseChildrenCompact (strip_cdata : Bool) (container : JObj) (cs : List XmlNode) :
    Except String JObj :=
  match cs with
  | [] => Except.ok container
  | c :: rest =>
      match parseelement c strip_cdata false true true with
      | Except.error e => Except.error e
      | Except.ok update_info =>
          match compactMerge container update_info with
          | Except.ok container2 => parseChildrenCompact strip_cdata container2 rest
          | Except.error e => Except.error e
termination_by sizeOf cs
decreasing_by
  all_goals simp_wf
  all_goals omega

/-- parseelement lines 159-160: the verbose child loop extends the
wrapper elements with each child conversion's elements sequence;
subscripting an exception object or a missing key raises, caught by the
caller and returned as an error value. -/
def parseChildrenVerbose (strip_cdata : Bool) (cs : List XmlNode) :
    Except String (List JValue) :=
  match cs with
  | [] => Except.ok []
  | c :: rest =>
      match parseelement c strip_cdata false false true with
      | Except.error e => Except.error e
      | Except.ok childOutput =>
          match objGet childOutput "elements" with
          | some (JValue.arr l) =>
              match parseChildrenVerbose strip_cdata rest with
              | Except.ok ls => Except.ok (l ++ ls)
              | Except.error e => Except.error e
          | _ => Except.error "TypeError: child output has no elements sequence"
termination_by sizeOf cs
decreasing_by
  all_goals simp_wf
  all_goals omega

end

/-- The elements sequence a child conversion contributes in verbose
mode: the value the code reads back under the elements key of the
recursive result (parseelement line 160). -/
def childElements (strip_cdata : Bool) (c : XmlNode) : Except String (List JValue) :=
  match parseelement c strip_cdata false false true with
  | Except.error e => Except.error e
  | Except.ok childOutput =>
      match objGet childOutput "elements" with
      | some (JValue.arr l) => Except.ok l
      | _ => Except.error "TypeError: child output has no elements sequence"

/-- The optional output fields that are omitted when empty. -/
def reservedKeys : List String :=
  ["attributes", "elements", "_attributes", "_text", "_cdata"]

/-- The declaration envelope keys of the two modes. -/
def declNames : List String := ["declaration", "_declaration"]

/-- An empty sequence or empty mapping. -/
def isEmptyish : JValue → Bool
  | JValue.arr [] => true
  | JValue.obj [] => true
  | _ => false

mutual

/-- Every binding reachable inside the value satisfies the predicate. -/
def allFieldsV (p : String → JValue → Bool) : JValue → Bool
  | JValue.str _ => true
  | JValue.exn _ => true
  | JValue.arr xs => allFieldsL p xs
  | JValue.obj fs => allFieldsF p fs

/-- Every binding reachable inside any member satisfies the predicate. -/
def allFieldsL (p : String → JValue → Bool) : List JValue → Bool
  | [] => true
  | v :: rest => allFieldsV p v && allFieldsL p rest

/-- Every binding of the mapping, recursively, satisfies the predicate. -/
def allFieldsF (p : String → JValue → Bool) : List (String × JValue) → Bool
  | [] => true
  | (k, v) :: rest => p k v && allFieldsV p v && allFieldsF p rest

end

/-- The binding is allowed by the empty-optional-field invariant: either
its key is not one of the optional output fields, or its value is not an
empty sequence or empty mapping. -/
def pairNoEmpty (k : String) (v : JValue) : Bool :=
  !reservedKeys.contains k || !isEmptyish v

/-- The binding does not use a declaration envelope key. -/
def pairNoDecl (k : String) (_v : JValue) : Bool :=
  !declNames.contains k

/-- No binding anywhere in the mapping gives one of the optional output
fields an empty sequence or empty mapping. -/
def noEmptyReservedF (o : JObj) : Bool :=
  allFieldsF pairNoEmpty o

/-- No binding anywhere in the mapping uses a declaration envelope key. -/
def noDeclKeysF (o : JObj) : Bool :=
  allFieldsF pairNoDecl o

mutual

/-- No element tag in the tree is among the given names. -/
def tagsAvoid (names : List String) : XmlNode → Bool
  | XmlNode.elem t _ _ _ cs => !names.contains t && tagsAvoidList names cs
  | XmlNode.comment _ => true
  | XmlNode.pi _ _ => true

/-- No element tag in any of the trees is among the given names. -/
def tagsAvoidList (names : List String) : List XmlNode → Bool
  | [] => true
  | c :: rest => tagsAvoid names c && tagsAvoidList names rest

end

mutual

/-- No element tag and no attribute name in the tree is among the given
names. -/
def namesAvoid (names : List String) : XmlNode → Bool
  | XmlNode.elem t a _ _ cs =>
      !names.contains t && a.all (fun q => !names.contains q.1) && namesAvoidList names cs
  | XmlNode.comment _ => true
  | XmlNode.pi _ a => a.all (fun q => !names.contains q.1)

/-- No element tag and no attribute name in any of the trees is among
the given names. -/
def namesAvoidList (names : List String) : List XmlNode → Bool
  | [] => true
  | c :: rest => namesAvoid names c && namesAvoidList names rest

end

/-- Does the optional compact text mapping carry the given key. -/
def compactHasKey (t : Option JObj) (k : String) : Bool :=
  match t with
  | none => false
  | some o => o.any (fun q => q.1 == k)

/-- Does some record of the optional verbose text sequence carry a type
field equal to the CDATA discriminator. -/
def verboseHasCdata (t : Option (List JValue)) : Bool :=
  match t with
  | none => false
  | some l => l.any (fun v => match v with
      | JValue.obj fs => fs.any (fun q => q.1 == "type" &&
          match q.2 with
          | JValue.str s => s == "cdata"
          | _ => false)
      | _ => false)

/-! Basic lemmas about the ordered-mapping operations. -/

theorem objUpdate_nil (o : JObj) : objUpdate o [] = o := rfl

theorem objUpdate_cons (o : JObj) (k : String) (v : JValue) (u : JObj) :
    objUpdate o ((k, v) :: u) = objUpdate (objSet o k v) u := rfl

theorem objUpdate_singleton (o : JObj) (k : String) (v : JValue) :
    objUpdate o [(k, v)] = objSet o k v := rfl

theorem objSet_fresh (o : JObj) (k : String) (v : JValue) (h : objGet o k = none) :
    objSet o k v = o ++ [(k, v)] := by
  induction o with
  | nil => rfl
  | cons q rest ih =>
      obtain ⟨k2, v2⟩ := q
      simp only [objGet] at h
      simp only [objSet]
      by_cases hk : k2 = k
      · simp [hk] at h
      · simp only [if_neg hk] at h ⊢
        simp [ih h]

theorem objGet_append_of_none (o u : JObj) (k : String) (h : objGet o k = none) :
    objGet (o ++ u) k = objGet u k := by
  induction o with
  | nil => rfl
  | cons q rest ih =>
      obtain ⟨k2, v2⟩ := q
      simp only [objGet] at h
      by_cases hk : k2 = k
      · simp [hk] at h
      · simp only [if_neg hk] at h
        simp only [List.cons_append, objGet, if_neg hk]
        exact ih h

theorem objSet_append_of_none (o u : JObj) (k : String) (v : JValue)
    (h : objGet o k = none) : objSet (o ++ u) k v = o ++ objSet u k v := by
  induction o with
  | nil => rfl
  | cons q rest ih =>
      obtain ⟨k2, v2⟩ := q
      simp only [objGet] at h
      by_cases hk : k2 = k
      · simp [hk] at h
      · simp only [if_neg hk] at h
        simp only [List.cons_append, objSet, if_neg hk]
        simp [ih h]

/-- Custom induction principle for the nested node type. -/
theorem xmlnode_ind (motive : XmlNode → Prop)
    (helem : ∀ t a r w cs, (∀ c ∈ cs, motive c) → motive (XmlNode.elem t a r w cs))
    (hcomment : ∀ s, motive (XmlNode.comment s))
    (hpi : ∀ w a, motive (XmlNode.pi w a)) :
    ∀ e, motive e := by
  have H : ∀ n (e : XmlNode), sizeOf e ≤ n → motive e := by
    intro n
    induction n with
    | zero =>
        intro e he
        exfalso
        cases e <;> simp at he
    | succ n ih =>
        intro e he
        cases e with
        | elem t a r w cs =>
            refine helem t a r w cs (fun c hc => ih c ?_)
            have h1 : sizeOf c < sizeOf cs := List.sizeOf_lt_of_mem hc
            simp at he
            omega
        | comment s => exact hcomment s
        | pi w a => exact hpi w a
  exact fun e => H (sizeOf e) e (Nat.le_refl _)

/-! Claim theorems. -/

/-- C6: for every node with at least one child, leafelement fails with
the LevelError condition, delivered as a returned error value (the
function is modelled Except-valued because the source catches the raise
and returns the exception); for childless nodes the function always
succeeds, so the LevelError branch is unreachable. -/
theorem leafelement_levelerror (e : XmlNode) (sc cm rbt : Bool) :
    ((getchildren e).isEmpty = false → leafelement e sc cm rbt = Except.error levelErrorMsg)
    ∧ ((getchildren e).isEmpty = true → ∃ v, leafelement e sc cm rbt = Except.ok v) := by
  constructor
  · intro h
    simp [leafelement, h]
  · intro h
    cases e with
    | elem t a r w cs =>
        simp only [getchildren] at h
        cases cm <;> simp [leafelement, getchildren, h]
    | comment s => cases cm <;> simp [leafelement, getchildren]
    | pi w a => cases cm <;> simp [leafelement, getchildren]

/-- Witness for C6 at concrete inputs: a node with one child fails with
the LevelError value, a childless node succeeds. -/
theorem leafelement_levelerror_example :
    leafelement (XmlNode.elem "a" [] [] "<a><b/></a>" [XmlNode.elem "b" [] [] "<b/>" []])
      false false true = Except.error levelErrorMsg
    ∧ ∃ v, leafelement (XmlNode.elem "b" [] [] "<b/>" []) false false true = Except.ok v := by
  constructor
  · exact (leafelement_levelerror _ false false true).1 (by simp [getchildren])
  · exact (leafelement_levelerror _ false false true).2 (by simp [getchildren])

/-- C8: in compact mode a PI leaf converts to the mapping whose
_instruction entry carries a name field holding the instruction body
extracted by the trailing-pattern match (not the PI target), plus an
attributes entry when attributes are present; when either pattern fails
to match the extracted string is empty and no error is produced. -/
theorem pi_compact_instruction (raw : String) (attrib : List (String × String)) (sc rbt : Bool) :
    leafelement (XmlNode.pi raw attrib) sc true rbt =
      Except.ok (if attrib.isEmpty
        then [("_instruction", JValue.obj [("name", JValue.str (piInstruction raw))])]
        else [("_instruction", JValue.obj [("name", JValue.str (piInstruction raw))]),
              ("attributes", JValue.obj (attribToObj attrib))])
    ∧ (piInstructionMatch raw = none → piInstruction raw = "")
    ∧ (piNameMatch raw.data = none → piName raw = "") := by
  refine ⟨?_, ?_, ?_⟩
  · by_cases h : attrib.isEmpty <;>
      simp [leafelement, getchildren, h, objUpdate, objSet]
  · intro h; simp [piInstruction, h]
  · intro h; simp [piName, h]

/-- Witness for C8: on a typical PI serialization the compact result
stores the body under the name field, and the body differs from the
target that the name pattern extracts. -/
theorem pi_compact_instruction_example :
    leafelement (XmlNode.pi "<?target body?>" []) false true true =
      Except.ok [("_instruction", JValue.obj [("name", JValue.str "body")])]
    ∧ piName "<?target body?>" = "target"
    ∧ ("body" : String) ≠ "target" := by
  refine ⟨?_, by decide, by decide⟩
  have h := (pi_compact_instruction "<?target body?>" [] false true).1
  simpa [show piInstruction "<?target body?>" = "body" by decide] using h

/-- C10: a PI leaf that carries attributes attaches them under the
attributes key in both modes; in compact mode as well, so the compact
result is the two-entry mapping with _instruction and attributes. -/
theorem pi_attributes_key (raw : String) (attrib : List (String × String)) (sc rbt : Bool)
    (h : attrib.isEmpty = false) :
    leafelement (XmlNode.pi raw attrib) sc true rbt =
      Except.ok [("_instruction", JValue.obj [("name", JValue.str (piInstruction raw))]),
        ("attributes", JValue.obj (attribToObj attrib))]
    ∧ leafelement (XmlNode.pi raw attrib) sc false rbt =
      Except.ok [("type", JValue.str "instruction"), ("name", JValue.str (piName raw)),
        ("instruction", JValue.str (piInstruction raw)),
        ("attributes", JValue.obj (attribToObj attrib))] := by
  constructor <;> simp [leafelement, getchildren, h, objUpdate, objSet]

/-- Witness for C10 at a concrete PI with one attribute. -/
theorem pi_attributes_key_example :
    leafelement (XmlNode.pi "<?target body?>" [("a", "1")]) false true true =
      Except.ok [("_instruction", JValue.obj [("name", JValue.str "body")]),
        ("attributes", JValue.obj [("a", JValue.str "1")])]
    ∧ leafelement (XmlNode.pi "<?target body?>" [("a", "1")]) false false true =
      Except.ok [("type", JValue.str "instruction"), ("name", JValue.str "target"),
        ("instruction", JValue.str "body"),
        ("attributes", JValue.obj [("a", JValue.str "1")])] := by
  have h := pi_attributes_key "<?target body?>" [("a", "1")] false true (by decide)
  simpa [show piInstruction "<?target body?>" = "body" by decide,
    show piName "<?target body?>" = "target" by decide, attribToObj] using h

/-- C2 (evidence for the code bug): on the whitespace-only leaf document
the full conversion contains no text node under either setting of
removeBlankText, because parseelement line 151 calls leafelement without
forwarding remove_blank_text (it defaults to true); the text extractor
itself honours the flag and, when it is false, keeps the run as a
(stripped, hence empty) text record the claim expects to appear. -/
theorem blank_text_flag_dropped_at_leaf :
    (parseelement (XmlNode.elem "a" [] ["  "] "<a>  </a>" []) false true false false =
      Except.ok [("declaration", JValue.obj [("attributes", JValue.obj
          [("version", JValue.str "1.0"), ("encoding", JValue.str "ISO-8859-1")])]),
        ("elements", JValue.arr [JValue.obj
          [("type", JValue.str "element"), ("name", JValue.str "a")]])])
    ∧ (parseelement (XmlNode.elem "a" [] ["  "] "<a>  </a>" []) false true false true =
      Except.ok [("declaration", JValue.obj [("attributes", JValue.obj
          [("version", JValue.str "1.0"), ("encoding", JValue.str "ISO-8859-1")])]),
        ("elements", JValue.arr [JValue.obj
          [("type", JValue.str "element"), ("name", JValue.str "a")]])])
    ∧ xml_text_verbose (XmlNode.elem "a" [] ["  "] "<a>  </a>" []) false false =
        some [textRecord ""]
    ∧ xml_text_verbose (XmlNode.elem "a" [] ["  "] "<a>  </a>" []) false true = none := by
  refine ⟨?_, ?_, rfl, rfl⟩ <;> (simp only [parseelement, getchildren]; rfl)

/-- If the strip flag is set, no run is classified CDATA. -/
theorem cdataTextSplit_strip (e : XmlNode) (runs : List String) :
    cdataTextSplit e true runs = ([], runs) := by
  induction runs with
  | nil => rfl
  | cons t rest ih => simp [cdataTextSplit, ih, isCdata]

/-- C7: with stripCdata set no run is classified CDATA in either mode
(no _cdata key in the compact text mapping, no CDATA-typed record in the
verbose text sequence); with stripCdata unset a run is classified CDATA
exactly when the raw serialized form of the node contains the literal
CDATA marker wrapping that exact stripped text. -/
theorem strip_cdata_rule (e : XmlNode) (rbt : Bool) :
    compactHasKey (xml_text_compact e true rbt) "_cdata" = false
    ∧ verboseHasCdata (xml_text_verbose e true rbt) = false
    ∧ (∀ t : String, cdataRecord t ∈ (xml_text_verbose e false rbt).getD []
        ↔ t ∈ xml_text_runs e rbt
          ∧ strContains (rawOf e) ("![CDATA[" ++ t ++ "]]") = true) := by
  refine ⟨?_, ?_, ?_⟩
  · simp only [xml_text_compact, cdataTextSplit_strip]
    by_cases h : (xml_text_runs e rbt).isEmpty
    · simp [h, compactHasKey]
    · by_cases h2 : (xml_text_runs e rbt) = []
      · simp [h2] at h
      · simp [h, h2, compactHasKey]
  · simp only [xml_text_verbose]
    by_cases h : (xml_text_runs e rbt).isEmpty
    · simp [h, verboseHasCdata]
    · simp [h, verboseHasCdata, isCdata, textRecord, List.any_map, Function.comp]
  · intro t
    simp only [xml_text_verbose]
    by_cases h : (xml_text_runs e rbt).isEmpty
    · rw [List.isEmpty_iff] at h
      simp [h]
    · rw [if_neg h, Option.getD_some, List.mem_map]
      constructor
      · rintro ⟨u, hu, he⟩
        by_cases hc : isCdata e false u = true
        · rw [if_pos hc] at he
          have : u = t := by
            simpa [cdataRecord] using he
          subst this
          refine ⟨hu, ?_⟩
          simpa [isCdata] using hc
        · rw [if_neg hc] at he
          simp [textRecord, cdataRecord] at he
      · rintro ⟨hm, hc⟩
        refine ⟨t, hm, ?_⟩
        simp [isCdata, hc]

/-- Witness for C7 on the CDATA document of the spec: with stripCdata
the content is not classified CDATA in either mode, and without
stripCdata the same content is classified CDATA. -/
theorem strip_cdata_rule_example :
    compactHasKey (xml_text_compact
      (XmlNode.elem "a" [] ["x"] "<a><![CDATA[x]]></a>" []) true true) "_cdata" = false
    ∧ verboseHasCdata (xml_text_verbose
      (XmlNode.elem "a" [] ["x"] "<a><![CDATA[x]]></a>" []) true true) = false
    ∧ cdataRecord "x" ∈ (xml_text_verbose
      (XmlNode.elem "a" [] ["x"] "<a><![CDATA[x]]></a>" []) false true).getD [] := by
  refine ⟨(strip_cdata_rule _ true).1, (strip_cdata_rule _ true).2.1, ?_⟩
  exact ((strip_cdata_rule _ true).2.2 "x").mpr ⟨by decide, by decide⟩

/-- CDATA classification depends on the node only through its raw
serialized form. -/
theorem isCdata_eq_of_raw (e1 e2 : XmlNode) (hw : rawOf e1 = rawOf e2) (sc : Bool)
    (t : String) : isCdata e1 sc t = isCdata e2 sc t := by
  simp [isCdata, hw]

/-- The bucket split depends on the node only through its raw form. -/
theorem cdataTextSplit_eq_of_raw (e1 e2 : XmlNode) (hw : rawOf e1 = rawOf e2) (sc : Bool) :
    ∀ runs, cdataTextSplit e1 sc runs = cdataTextSplit e2 sc runs := by
  intro runs
  induction runs with
  | nil => rfl
  | cons t rest ih => simp [cdataTextSplit, ih, isCdata_eq_of_raw e1 e2 hw]

/-- The compact text extraction depends on the node only through its
text runs and raw form; in particular it ignores the children. -/
theorem xml_text_compact_eq_of (e1 e2 : XmlNode) (hr : textRunsOf e1 = textRunsOf e2)
    (hw : rawOf e1 = rawOf e2) (sc rbt : Bool) :
    xml_text_compact e1 sc rbt = xml_text_compact e2 sc rbt := by
  simp [xml_text_compact, xml_text_runs, hr, cdataTextSplit_eq_of_raw e1 e2 hw]

/-- The verbose text extraction depends on the node only through its
text runs and raw form; in particular it ignores the children. -/
theorem xml_text_verbose_eq_of (e1 e2 : XmlNode) (hr : textRunsOf e1 = textRunsOf e2)
    (hw : rawOf e1 = rawOf e2) (sc rbt : Bool) :
    xml_text_verbose e1 sc rbt = xml_text_verbose e2 sc rbt := by
  have hi : ∀ t, isCdata e1 sc t = isCdata e2 sc t := isCdata_eq_of_raw e1 e2 hw sc
  simp [xml_text_verbose, xml_text_runs, hr, hi]

/-- A non-sequence value promotes to the one-element sequence. -/
theorem promoteList_of_not_arr (v : JValue) (h : isArrB v = false) : promoteList v = [v] := by
  cases v <;> simp [promoteList, isArrB] at h ⊢

/-- C1: in compact mode, merging a child conversion whose sole top-level
key already exists in the parent container promotes the existing value
to a sequence (if it is not one already) and appends the child value,
while a fresh key is inserted directly; consequently an element whose
two children both convert to the same sole key collects a two-element
sequence under that key, and with exactly one such child the container
holds the bare (non-sequence) child value. -/
theorem compact_merge_rule
    (tag : String) (att : List (String × String)) (runs : List String) (raw : String)
    (c1 c2 : XmlNode) (sc rbt : Bool) (k : String) (v1 v2 : JValue)
    (h1 : parseelement c1 sc false true true = Except.ok [(k, v1)])
    (h2 : parseelement c2 sc false true true = Except.ok [(k, v2)])
    (hfresh : objGet (compactContainer0 att
        (xml_text_compact (XmlNode.elem tag att runs raw [c1, c2]) sc rbt)) k = none)
    (hv1 : isArrB v1 = false) :
    (∀ (container u : JObj) (k2 : String) (v w : JValue),
        (objGet container k2 = some w →
          compactMerge container ((k2, v) :: u) =
            Except.ok (objSet container k2 (JValue.arr (promoteList w ++ [v]))))
        ∧ (objGet container k2 = none →
          compactMerge container ((k2, v) :: u) =
            Except.ok (objUpdate container ((k2, v) :: u))))
    ∧ parseelement (XmlNode.elem tag att runs raw [c1, c2]) sc false true rbt =
        Except.ok [(tag, JValue.obj
          (compactContainer0 att
              (xml_text_compact (XmlNode.elem tag att runs raw [c1, c2]) sc rbt)
            ++ [(k, JValue.arr [v1, v2])]))]
    ∧ parseelement (XmlNode.elem tag att runs raw [c1]) sc false true rbt =
        Except.ok [(tag, JValue.obj
          (compactContainer0 att
              (xml_text_compact (XmlNode.elem tag att runs raw [c1]) sc rbt)
            ++ [(k, v1)]))] := by
  have hcont : xml_text_compact (XmlNode.elem tag att runs raw [c1]) sc rbt =
      xml_text_compact (XmlNode.elem tag att runs raw [c1, c2]) sc rbt :=
    xml_text_compact_eq_of (XmlNode.elem tag att runs raw [c1])
      (XmlNode.elem tag att runs raw [c1, c2]) rfl rfl sc rbt
  refine ⟨?_, ?_, ?_⟩
  · intro container u k2 v w
    constructor
    · intro hg
      simp [compactMerge, hg]
    · intro hg
      simp [compactMerge, hg]
  · rw [parseelement]
    simp only [getchildren, tagOf, attribOf, List.isEmpty_cons, dite_false, if_true,
      parseChildrenCompact, h1, h2, compactMerge, hfresh, objUpdate_singleton]
    rw [objSet_fresh _ _ _ hfresh]
    rw [objGet_append_of_none _ _ _ hfresh]
    simp only [objGet, if_pos rfl, objSet_append_of_none _ _ _ _ hfresh]
    simp only [objSet, if_pos rfl]
    simp [compactHeader, objSet, promoteList_of_not_arr v1 hv1]
  · rw [parseelement]
    simp only [getchildren, tagOf, attribOf, List.isEmpty_cons, dite_false, if_true,
      parseChildrenCompact, h1, compactMerge, hcont, hfresh, objUpdate_singleton]
    rw [objSet_fresh _ _ _ hfresh]
    simp [compactHeader, objSet]

/-- Witness for C1 on the two same-named children document of the spec
and its single-child variant. -/
theorem compact_merge_rule_example :
    parseelement (XmlNode.elem "root" [] [] "<root><a>x</a><a>y</a></root>"
        [XmlNode.elem "a" [] ["x"] "<a>x</a>" [], XmlNode.elem "a" [] ["y"] "<a>y</a>" []])
      false false true true =
      Except.ok [("root", JValue.obj [("a", JValue.arr
        [JValue.obj [("_text", JValue.str "x")], JValue.obj [("_text", JValue.str "y")]])])]
    ∧ parseelement (XmlNode.elem "root" [] [] "<root><a>x</a><a>y</a></root>"
        [XmlNode.elem "a" [] ["x"] "<a>x</a>" []])
      false false true true =
      Except.ok [("root", JValue.obj [("a", JValue.obj [("_text", JValue.str "x")])])] := by
  have h := compact_merge_rule "root" [] [] "<root><a>x</a><a>y</a></root>"
    (XmlNode.elem "a" [] ["x"] "<a>x</a>" []) (XmlNode.elem "a" [] ["y"] "<a>y</a>" [])
    false true "a" (JValue.obj [("_text", JValue.str "x")]) (JValue.obj [("_text", JValue.str "y")])
    (by simp only [parseelement, getchildren]; rfl)
    (by simp only [parseelement, getchildren]; rfl)
    (by rfl) (by rfl)
  exact ⟨h.2.1, h.2.2⟩

/-- C3: in verbose mode the converted elements sequence of a node with
children is assembled by first laying down the node's own direct-text
records in run order and then, for each child in document order,
appending every element of the child's converted elements sequence (the
child result unwrapped by exactly one level); the wrapper record itself
sits alone under the top-level elements key after the optional header. -/
theorem verbose_flatten_rule (sc : Bool) :
    (∀ (c : XmlNode) (rest : List XmlNode) (l ls : List JValue),
        childElements sc c = Except.ok l →
        parseChildrenVerbose sc rest = Except.ok ls →
        parseChildrenVerbose sc (c :: rest) = Except.ok (l ++ ls))
    ∧ (∀ (tag : String) (att : List (String × String)) (runs : List String) (raw : String)
        (cs : List XmlNode) (hd rbt : Bool) (els : List JValue),
        cs.isEmpty = false →
        parseChildrenVerbose sc cs = Except.ok els →
        parseelement (XmlNode.elem tag att runs raw cs) sc hd false rbt =
          Except.ok (objUpdate (verboseHeader hd) [("elements", JValue.arr [JValue.obj
            (objUpdate (verboseWrapper0 tag att) [("elements", JValue.arr
              (verboseTextSeed (xml_text_verbose (XmlNode.elem tag att runs raw cs) sc rbt)
                ++ els))])])])) := by
  constructor
  · intro c rest l ls hc hr
    simp only [childElements] at hc
    rw [parseChildrenVerbose]
    cases hp : parseelement c sc false false true with
    | error e => simp only [hp] at hc; exact Except.noConfusion hc
    | ok o =>
        simp only [hp] at hc ⊢
        cases hg : objGet o "elements" with
        | none => simp only [hg] at hc; exact Except.noConfusion hc
        | some v =>
            cases v with
            | arr l2 =>
                simp only [hg, Except.ok.injEq] at hc ⊢
                subst hc
                simp [hr]
            | str s2 => simp only [hg] at hc; exact Except.noConfusion hc
            | obj f2 => simp only [hg] at hc; exact Except.noConfusion hc
            | exn m2 => simp only [hg] at hc; exact Except.noConfusion hc
  · intro tag att runs raw cs hd rbt els hcs hch
    rw [parseelement]
    simp only [getchildren, tagOf, attribOf, hcs, Bool.false_eq_true, dite_false,
      Bool.false_eq_true, if_false, hch]

/-- Witness for C3 at a concrete node with one text run and one child:
the wrapper elements sequence holds the text record first, then the
child's own elements. -/
theorem verbose_flatten_rule_example :
    parseelement (XmlNode.elem "r" [] ["t"] "<r>t<b>u</b></r>"
        [XmlNode.elem "b" [] ["u"] "<b>u</b>" []]) false true false true =
      Except.ok [("declaration", JValue.obj [("attributes", JValue.obj
          [("version", JValue.str "1.0"), ("encoding", JValue.str "ISO-8859-1")])]),
        ("elements", JValue.arr [JValue.obj
          [("type", JValue.str "element"), ("name", JValue.str "r"),
           ("elements", JValue.arr [textRecord "t",
             JValue.obj [("type", JValue.str "element"), ("name", JValue.str "b"),
               ("elements", JValue.arr [textRecord "u"])]])]])] := by
  exact (verbose_flatten_rule false).2 "r" [] ["t"] "<r>t<b>u</b></r>"
    [XmlNode.elem "b" [] ["u"] "<b>u</b>" []] true true
    [JValue.obj [("type", JValue.str "element"), ("name", JValue.str "b"),
      ("elements", JValue.arr [textRecord "u"])]]
    rfl
    (by simp only [parseChildrenVerbose, parseelement, getchildren]; rfl)

/-- When every direct run of the node strips to a nonempty string, the
survivor list does not depend on the blank-removal flag. -/
theorem xml_text_runs_rbt (e : XmlNode)
    (h : ∀ t ∈ textRunsOf e, (pyStrip t).data.isEmpty = false) (rbt1 rbt2 : Bool) :
    xml_text_runs e rbt1 = xml_text_runs e rbt2 := by
  have hf : ((textRunsOf e).map pyStrip).filter (fun t => !t.data.isEmpty)
      = (textRunsOf e).map pyStrip := by
    apply List.filter_eq_self.mpr
    intro a ha
    rcases List.mem_map.mp ha with ⟨t, ht, rfl⟩
    simp [h t ht]
  cases rbt1 <;> cases rbt2 <;> simp [xml_text_runs, hf]

/-- Under the same hypothesis the compact text extraction ignores the
blank-removal flag. -/
theorem xml_text_compact_rbt (e : XmlNode)
    (h : ∀ t ∈ textRunsOf e, (pyStrip t).data.isEmpty = false) (sc rbt1 rbt2 : Bool) :
    xml_text_compact e sc rbt1 = xml_text_compact e sc rbt2 := by
  unfold xml_text_compact
  rw [xml_text_runs_rbt e h rbt1 rbt2]

/-- Under the same hypothesis the verbose text extraction ignores the
blank-removal flag. -/
theorem xml_text_verbose_rbt (e : XmlNode)
    (h : ∀ t ∈ textRunsOf e, (pyStrip t).data.isEmpty = false) (sc rbt1 rbt2 : Bool) :
    xml_text_verbose e sc rbt1 = xml_text_verbose e sc rbt2 := by
  unfold xml_text_verbose
  rw [xml_text_runs_rbt e h rbt1 rbt2]

/-- C9: removeBlankText can only influence the root's own direct text.
For a leaf root the flag is ignored entirely (the leafelement call omits
the argument), and for a root whose stripped runs are all nonempty the
whole output is identical under both flag settings, because every
recursive call on children likewise omits the argument, leaving the
default of true in force below the root. -/
theorem remove_blank_text_below_root (e : XmlNode) (sc hd cm : Bool)
    (h : (getchildren e).isEmpty = true
      ∨ ∀ t ∈ textRunsOf e, (pyStrip t).data.isEmpty = false) :
    parseelement e sc hd cm true = parseelement e sc hd cm false := by
  rw [parseelement, parseelement]
  rcases h with h | h
  · simp [h]
  · by_cases hch : (getchildren e).isEmpty = true
    · simp [hch]
    · simp [hch, xml_text_compact_rbt e h sc true false,
        xml_text_verbose_rbt e h sc true false]

/-- Witness for C9: a document whose only text is a whitespace-only run
inside a child converts identically with the flag on and off. -/
theorem remove_blank_text_below_root_example :
    parseelement (XmlNode.elem "r" [] [] "<r><a>  </a></r>"
        [XmlNode.elem "a" [] ["  "] "<a>  </a>" []]) false true false true =
      parseelement (XmlNode.elem "r" [] [] "<r><a>  </a></r>"
        [XmlNode.elem "a" [] ["  "] "<a>  </a>" []]) false true false false :=
  remove_blank_text_below_root _ false true false (Or.inr (by simp [textRunsOf]))

/-! Generic preservation lemmas for the recursive field checker. -/

theorem allFieldsL_append (p : String → JValue → Bool) (a b : List JValue) :
    allFieldsL p (a ++ b) = (allFieldsL p a && allFieldsL p b) := by
  induction a with
  | nil => simp [allFieldsL]
  | cons v rest ih => simp [allFieldsL, ih, Bool.and_assoc]

theorem allFieldsF_append (p : String → JValue → Bool) (o u : JObj) :
    allFieldsF p (o ++ u) = (allFieldsF p o && allFieldsF p u) := by
  induction o with
  | nil => simp [allFieldsF]
  | cons q rest ih =>
      obtain ⟨k, v⟩ := q
      simp [allFieldsF, ih, Bool.and_assoc]

theorem allFieldsF_objSet (p : String → JValue → Bool) (o : JObj) (k : String) (v : JValue)
    (ho : allFieldsF p o = true) (hp : p k v = true) (hv : allFieldsV p v = true) :
    allFieldsF p (objSet o k v) = true := by
  induction o with
  | nil => simp [objSet, allFieldsF, hp, hv]
  | cons q rest ih =>
      obtain ⟨k2, v2⟩ := q
      simp only [allFieldsF, Bool.and_eq_true] at ho
      by_cases hk : k2 = k
      · simp [objSet, hk, allFieldsF, hp, hv, ho.2]
      · simp [objSet, hk, allFieldsF, ho.1.1, ho.1.2, ih ho.2]

theorem allFieldsF_objUpdate (p : String → JValue → Bool) (o u : JObj)
    (ho : allFieldsF p o = true) (hu : allFieldsF p u = true) :
    allFieldsF p (objUpdate o u) = true := by
  induction u generalizing o with
  | nil => simpa [objUpdate] using ho
  | cons q rest ih =>
      obtain ⟨k, v⟩ := q
      simp only [allFieldsF, Bool.and_eq_true] at hu
      rw [objUpdate_cons]
      exact ih (objSet o k v) (allFieldsF_objSet p o k v ho hu.1.1 hu.1.2) hu.2

theorem allFieldsF_objGet (p : String → JValue → Bool) (o : JObj) (k : String) (v : JValue)
    (ho : allFieldsF p o = true) (h : objGet o k = some v) :
    p k v = true ∧ allFieldsV p v = true := by
  induction o with
  | nil => simp [objGet] at h
  | cons q rest ih =>
      obtain ⟨k2, v2⟩ := q
      simp only [allFieldsF, Bool.and_eq_true] at ho
      simp only [objGet] at h
      by_cases hk : k2 = k
      · rw [if_pos hk] at h
        obtain rfl : v2 = v := by simpa using h
        subst hk
        exact ⟨ho.1.1, ho.1.2⟩
      · rw [if_neg hk] at h
        exact ih ho.2 h

theorem allFieldsL_promoteList (p : String → JValue → Bool) (v : JValue)
    (h : allFieldsV p v = true) : allFieldsL p (promoteList v) = true := by
  cases v <;> simp_all [promoteList, allFieldsL, allFieldsV]

theorem allFieldsL_map_str (p : String → JValue → Bool) (ts : List String) :
    allFieldsL p (ts.map JValue.str) = true := by
  induction ts with
  | nil => simp [allFieldsL]
  | cons t rest ih => simp [allFieldsL, allFieldsV, ih]

theorem allFieldsV_collapseRuns (p : String → JValue → Bool) (ts : List String) :
    allFieldsV p (collapseRuns ts) = true := by
  match ts with
  | [] => simp [collapseRuns, allFieldsV, allFieldsL]
  | [t] => simp [collapseRuns, allFieldsV]
  | t1 :: t2 :: rest =>
      have h := allFieldsL_map_str p (t1 :: t2 :: rest)
      simpa [collapseRuns, allFieldsV] using h

theorem isEmptyish_collapseRuns (ts : List String) (h : ts ≠ []) :
    isEmptyish (collapseRuns ts) = false := by
  match ts with
  | [] => exact absurd rfl h
  | [t] => simp [collapseRuns, isEmptyish]
  | t1 :: t2 :: rest => simp [collapseRuns, isEmptyish]

theorem objGet_objSet_same (o : JObj) (k : String) (v : JValue) :
    objGet (objSet o k v) k = some v := by
  induction o with
  | nil => simp [objSet, objGet]
  | cons q rest ih =>
      obtain ⟨k2, v2⟩ := q
      by_cases hk : k2 = k
      · simp [objSet, hk, objGet]
      · simp [objSet, hk, objGet, ih]

/-! Field lemmas for the attribute and text building blocks. -/

theorem allFieldsF_attribToObj (p : String → JValue → Bool)
    (a : List (String × String)) (h : ∀ q ∈ a, p q.1 (JValue.str q.2) = true) :
    allFieldsF p (attribToObj a) = true := by
  induction a with
  | nil => simp [attribToObj, allFieldsF]
  | cons q rest ih =>
      obtain ⟨k, s⟩ := q
      simp only [attribToObj, List.map_cons, allFieldsF, Bool.and_eq_true]
      refine ⟨⟨h (k, s) (by simp), by simp [allFieldsV]⟩, ?_⟩
      have := ih (fun q hq => h q (by simp [hq]))
      simpa [attribToObj] using this

theorem isEmptyish_attribObj (a : List (String × String)) (h : a.isEmpty = false) :
    isEmptyish (JValue.obj (attribToObj a)) = false := by
  cases a with
  | nil => simp at h
  | cons q rest => simp [attribToObj, isEmptyish]

theorem xml_text_compact_fields (p : String → JValue → Bool)
    (h1 : ∀ ts : List String, ts ≠ [] → p "_cdata" (collapseRuns ts) = true)
    (h2 : ∀ ts : List String, ts ≠ [] → p "_text" (collapseRuns ts) = true)
    (e : XmlNode) (sc rbt : Bool) (t : JObj) (h : xml_text_compact e sc rbt = some t) :
    allFieldsF p t = true := by
  unfold xml_text_compact at h
  by_cases hr : (xml_text_runs e rbt).isEmpty
  · simp [hr] at h
  · rw [if_neg hr] at h
    simp only [Option.some.injEq] at h
    subst h
    rw [allFieldsF_append]
    simp only [Bool.and_eq_true]
    constructor
    · by_cases hc : (cdataTextSplit e sc (xml_text_runs e rbt)).1.isEmpty
      · simp [hc, allFieldsF]
      · have hne : (cdataTextSplit e sc (xml_text_runs e rbt)).1 ≠ [] := by
          intro hnil
          simp [hnil] at hc
        simp [hc, allFieldsF, allFieldsV_collapseRuns, h1 _ hne]
    · by_cases hc : (cdataTextSplit e sc (xml_text_runs e rbt)).2.isEmpty
      · simp [hc, allFieldsF]
      · have hne : (cdataTextSplit e sc (xml_text_runs e rbt)).2 ≠ [] := by
          intro hnil
          simp [hnil] at hc
        simp [hc, allFieldsF, allFieldsV_collapseRuns, h2 _ hne]

theorem xml_text_verbose_fields (p : String → JValue → Bool)
    (h1 : ∀ s, p "type" (JValue.str s) = true)
    (h2 : ∀ s, p "text" (JValue.str s) = true)
    (h3 : ∀ s, p "cdata" (JValue.str s) = true)
    (e : XmlNode) (sc rbt : Bool) (l : List JValue) (h : xml_text_verbose e sc rbt = some l) :
    allFieldsL p l = true := by
  unfold xml_text_verbose at h
  by_cases hr : (xml_text_runs e rbt).isEmpty
  · simp [hr] at h
  · rw [if_neg hr] at h
    simp only [Option.some.injEq] at h
    subst h
    generalize xml_text_runs e rbt = runs
    induction runs with
    | nil => simp [allFieldsL]
    | cons t rest ih =>
        simp only [List.map_cons, allFieldsL, Bool.and_eq_true]
        refine ⟨?_, ih⟩
        by_cases hc : isCdata e sc t = true
        · simp [hc, allFieldsV, allFieldsF, cdataRecord, h1, h3]
        · simp [hc, allFieldsV, allFieldsF, textRecord, h1, h2]

theorem verboseTextSeed_fields (p : String → JValue → Bool)
    (h1 : ∀ s, p "type" (JValue.str s) = true)
    (h2 : ∀ s, p "text" (JValue.str s) = true)
    (h3 : ∀ s, p "cdata" (JValue.str s) = true)
    (e : XmlNode) (sc rbt : Bool) :
    allFieldsL p (verboseTextSeed (xml_text_verbose e sc rbt)) = true := by
  cases ho : xml_text_verbose e sc rbt with
  | none => simp [verboseTextSeed, allFieldsL]
  | some l =>
      by_cases hl : l.isEmpty
      · simp [verboseTextSeed, hl, allFieldsL]
      · simpa [verboseTextSeed, hl] using
          xml_text_verbose_fields p h1 h2 h3 e sc rbt l ho

theorem compactContainer0_fields (p : String → JValue → Bool)
    (attrib : List (String × String)) (topt : Option JObj)
    (hattr : attrib.isEmpty = false → p "_attributes" (JValue.obj (attribToObj attrib)) = true)
    (hattrF : ∀ q ∈ attrib, p q.1 (JValue.str q.2) = true)
    (htext : ∀ t, topt = some t → allFieldsF p t = true) :
    allFieldsF p (compactContainer0 attrib topt) = true := by
  have hc1 : allFieldsF p (if attrib.isEmpty then ([] : JObj)
      else objUpdate [] [("_attributes", JValue.obj (attribToObj attrib))]) = true := by
    cases ha : attrib.isEmpty with
    | true => simp [allFieldsF]
    | false =>
        simp only [if_false, Bool.false_eq_true, objUpdate_singleton]
        refine allFieldsF_objSet p [] "_attributes" _ (by simp [allFieldsF]) (hattr ha) ?_
        simpa [allFieldsV] using allFieldsF_attribToObj p attrib hattrF
  unfold compactContainer0
  cases topt with
  | none => exact hc1
  | some t =>
      cases ht : t.isEmpty with
      | true => simpa [ht] using hc1
      | false => simpa [ht] using allFieldsF_objUpdate p _ t hc1 (htext t rfl)

theorem verboseWrapper0_fields (p : String → JValue → Bool)
    (tag : String) (attrib : List (String × String))
    (h1 : p "type" (JValue.str "element") = true)
    (h2 : p "name" (JValue.str tag) = true)
    (h3 : attrib.isEmpty = false → p "attributes" (JValue.obj (attribToObj attrib)) = true)
    (hattrF : ∀ q ∈ attrib, p q.1 (JValue.str q.2) = true) :
    allFieldsF p (verboseWrapper0 tag attrib) = true := by
  unfold verboseWrapper0
  have hb : allFieldsF p [("type", JValue.str "element"), ("name", JValue.str tag)] = true := by
    simp [allFieldsF, allFieldsV, h1, h2]
  cases ha : attrib.isEmpty with
  | true => simpa using hb
  | false =>
      simp only [if_false, Bool.false_eq_true]
      refine allFieldsF_objUpdate p _ _ hb ?_
      simp only [allFieldsF, Bool.and_eq_true]
      refine ⟨⟨h3 ha, ?_⟩, by simp [allFieldsF]⟩
      simpa [allFieldsV] using allFieldsF_attribToObj p attrib hattrF

theorem verboseLeafBase_fields (p : String → JValue → Bool)
    (tag : String) (attrib : List (String × String)) (topt : Option (List JValue))
    (h1 : p "type" (JValue.str "element") = true)
    (h2 : p "name" (JValue.str tag) = true)
    (h3 : attrib.isEmpty = false → p "attributes" (JValue.obj (attribToObj attrib)) = true)
    (hattrF : ∀ q ∈ attrib, p q.1 (JValue.str q.2) = true)
    (h4 : ∀ l : List JValue, l.isEmpty = false → p "elements" (JValue.arr l) = true)
    (htext : ∀ l, topt = some l → allFieldsL p l = true) :
    allFieldsF p (verboseLeafBase tag attrib topt) = true := by
  unfold verboseLeafBase
  have hw := verboseWrapper0_fields p tag attrib h1 h2 h3 hattrF
  cases topt with
  | none => exact hw
  | some l =>
      cases hl : l.isEmpty with
      | true => simpa [hl] using hw
      | false =>
          simp only [hl, if_false, Bool.false_eq_true]
          refine allFieldsF_objUpdate p _ _ hw ?_
          simp only [allFieldsF, Bool.and_eq_true]
          refine ⟨⟨h4 l hl, ?_⟩, by simp [allFieldsF]⟩
          simpa [allFieldsV] using htext l rfl

/-- The compact declaration envelope respects the empty-field invariant. -/
theorem compactHeader_fields5 (hd : Bool) : noEmptyReservedF (compactHeader hd) = true := by
  cases hd <;>
    simp [compactHeader, noEmptyReservedF, allFieldsF, allFieldsV, pairNoEmpty,
      reservedKeys, isEmptyish]

/-- The verbose declaration envelope respects the empty-field invariant. -/
theorem verboseHeader_fields5 (hd : Bool) : noEmptyReservedF (verboseHeader hd) = true := by
  cases hd <;>
    simp [verboseHeader, noEmptyReservedF, allFieldsF, allFieldsV, pairNoEmpty,
      reservedKeys, isEmptyish]

theorem pairNoEmpty_str (k s : String) : pairNoEmpty k (JValue.str s) = true := by
  simp [pairNoEmpty, isEmptyish]

theorem pairNoEmpty_collapse (k : String) (ts : List String) (h : ts ≠ []) :
    pairNoEmpty k (collapseRuns ts) = true := by
  simp [pairNoEmpty, isEmptyish_collapseRuns ts h]

theorem pairNoEmpty_arr (k : String) (l : List JValue) (h : l.isEmpty = false) :
    pairNoEmpty k (JValue.arr l) = true := by
  cases l with
  | nil => simp at h
  | cons v rest => simp [pairNoEmpty, isEmptyish]

/-- A successful leaf conversion of a node whose element tag avoids the
reserved key names never binds a reserved key to an empty value. -/
theorem leafelement_fields5 (e : XmlNode) (sc cm rbt : Bool) (v : JObj)
    (ht : tagsAvoid reservedKeys e = true)
    (h : leafelement e sc cm rbt = Except.ok v) :
    noEmptyReservedF v = true := by
  unfold noEmptyReservedF
  cases e with
  | pi raw attrib =>
      simp only [leafelement, getchildren, List.isEmpty_nil, Bool.not_true,
        Bool.false_eq_true, if_false, Except.ok.injEq] at h
      subst h
      have hbase : allFieldsF pairNoEmpty (if cm
          then [("_instruction", JValue.obj [("name", JValue.str (piInstruction raw))])]
          else [("type", JValue.str "instruction"), ("name", JValue.str (piName raw)),
            ("instruction", JValue.str (piInstruction raw))]) = true := by
        cases cm <;>
          simp [allFieldsF, allFieldsV, pairNoEmpty, reservedKeys, isEmptyish]
      cases ha : attrib.isEmpty with
      | true => simpa [ha] using hbase
      | false =>
          simp only [ha, if_false, Bool.false_eq_true]
          refine allFieldsF_objUpdate _ _ _ hbase ?_
          simp only [allFieldsF, Bool.and_eq_true]
          refine ⟨⟨?_, ?_⟩, by simp [allFieldsF]⟩
          · simp [pairNoEmpty, isEmptyish_attribObj attrib ha]
          · simpa [allFieldsV] using
              allFieldsF_attribToObj pairNoEmpty attrib (fun q _ => pairNoEmpty_str q.1 q.2)
  | comment s =>
      simp only [leafelement, getchildren, List.isEmpty_nil, Bool.not_true,
        Bool.false_eq_true, if_false, Except.ok.injEq] at h
      subst h
      cases cm <;>
        simp [allFieldsF, allFieldsV, pairNoEmpty, reservedKeys, isEmptyish]
  | elem tag attrib runs raw cs =>
      simp only [tagsAvoid, Bool.and_eq_true] at ht
      cases hch : cs.isEmpty with
      | false =>
          simp [leafelement, getchildren, hch] at h
      | true =>
          simp only [leafelement, getchildren, hch, Bool.not_true, Bool.false_eq_true,
            if_false] at h
          cases cm with
          | true =>
              simp only [if_true, Except.ok.injEq] at h
              subst h
              simp only [allFieldsF, Bool.and_eq_true]
              refine ⟨⟨?_, ?_⟩, by simp [allFieldsF]⟩
              · simp only [pairNoEmpty, ht.1, Bool.true_or]
              · simp only [allFieldsV]
                refine compactContainer0_fields pairNoEmpty attrib _ ?_ ?_ ?_
                · intro ha
                  simp [pairNoEmpty, isEmptyish_attribObj attrib ha]
                · exact fun q _ => pairNoEmpty_str q.1 q.2
                · intro t htt
                  exact xml_text_compact_fields pairNoEmpty
                    (fun ts hne => pairNoEmpty_collapse _ ts hne)
                    (fun ts hne => pairNoEmpty_collapse _ ts hne) _ _ _ t htt
          | false =>
              simp only [Bool.false_eq_true, if_false, Except.ok.injEq] at h
              subst h
              refine verboseLeafBase_fields pairNoEmpty tag attrib _
                (pairNoEmpty_str _ _) (pairNoEmpty_str _ _) ?_
                (fun q _ => pairNoEmpty_str q.1 q.2)
                (fun l hl => pairNoEmpty_arr _ l hl) ?_
              · intro ha
                simp [pairNoEmpty, isEmptyish_attribObj attrib ha]
              · intro l hl
                exact xml_text_verbose_fields pairNoEmpty
                  (fun s => pairNoEmpty_str _ _) (fun s => pairNoEmpty_str _ _)
                  (fun s => pairNoEmpty_str _ _) _ _ _ l hl

/-- A successful leaf conversion of a node whose element tag and
attribute names avoid the declaration key names produces no declaration
key anywhere. -/
theorem leafelement_fields4 (e : XmlNode) (sc cm rbt : Bool) (v : JObj)
    (ht : namesAvoid declNames e = true)
    (h : leafelement e sc cm rbt = Except.ok v) :
    noDeclKeysF v = true := by
  unfold noDeclKeysF
  cases e with
  | pi raw attrib =>
      simp only [namesAvoid, List.all_eq_true, Bool.not_eq_eq_eq_not, Bool.not_true] at ht
      simp only [leafelement, getchildren, List.isEmpty_nil, Bool.not_true,
        Bool.false_eq_true, if_false, Except.ok.injEq] at h
      subst h
      have hbase : allFieldsF pairNoDecl (if cm
          then [("_instruction", JValue.obj [("name", JValue.str (piInstruction raw))])]
          else [("type", JValue.str "instruction"), ("name", JValue.str (piName raw)),
            ("instruction", JValue.str (piInstruction raw))]) = true := by
        cases cm <;>
          simp [allFieldsF, allFieldsV, pairNoDecl, declNames]
      cases ha : attrib.isEmpty with
      | true => simpa [ha] using hbase
      | false =>
          simp only [ha, if_false, Bool.false_eq_true]
          refine allFieldsF_objUpdate _ _ _ hbase ?_
          simp only [allFieldsF, Bool.and_eq_true]
          refine ⟨⟨by simp [pairNoDecl, declNames], ?_⟩, by simp [allFieldsF]⟩
          have hx : ∀ q ∈ attrib, pairNoDecl q.1 (JValue.str q.2) = true := by
            intro q hq
            simpa [pairNoDecl] using ht q hq
          simpa [allFieldsV] using allFieldsF_attribToObj pairNoDecl attrib hx
  | comment s =>
      simp only [leafelement, getchildren, List.isEmpty_nil, Bool.not_true,
        Bool.false_eq_true, if_false, Except.ok.injEq] at h
      subst h
      cases cm <;> simp [allFieldsF, allFieldsV, pairNoDecl, declNames]
  | elem tag attrib runs raw cs =>
      simp only [namesAvoid, Bool.and_eq_true, List.all_eq_true] at ht
      cases hch : cs.isEmpty with
      | false =>
          simp [leafelement, getchildren, hch] at h
      | true =>
          simp only [leafelement, getchildren, hch, Bool.not_true, Bool.false_eq_true,
            if_false] at h
          cases cm with
          | true =>
              simp only [if_true, Except.ok.injEq] at h
              subst h
              simp only [allFieldsF, Bool.and_eq_true]
              refine ⟨⟨by simpa [pairNoDecl] using ht.1.1, ?_⟩, by simp [allFieldsF]⟩
              simp only [allFieldsV]
              refine compactContainer0_fields pairNoDecl attrib _ ?_ ?_ ?_
              · intro _
                simp [pairNoDecl, declNames]
              · intro q hq
                simpa [pairNoDecl] using ht.1.2 q hq
              · intro t htt
                exact xml_text_compact_fields pairNoDecl
                  (fun ts _ => by simp [pairNoDecl, declNames])
                  (fun ts _ => by simp [pairNoDecl, declNames]) _ _ _ t htt
          | false =>
              simp only [Bool.false_eq_true, if_false, Except.ok.injEq] at h
              subst h
              refine verboseLeafBase_fields pairNoDecl tag attrib _
                (by simp [pairNoDecl, declNames]) (by simp [pairNoDecl, declNames]) ?_
                ?_ (fun l _ => by simp [pairNoDecl, declNames]) ?_
              · intro _
                simp [pairNoDecl, declNames]
              · intro q hq
                simpa [pairNoDecl] using ht.1.2 q hq
              · intro l hl
                exact xml_text_verbose_fields pairNoDecl
                  (fun s => by simp [pairNoDecl, declNames])
                  (fun s => by simp [pairNoDecl, declNames])
                  (fun s => by simp [pairNoDecl, declNames]) _ _ _ l hl

theorem compactMerge_good (p : String → JValue → Bool)
    (harr : ∀ (k : String) (v0 : JValue) (xs : List JValue),
      p k v0 = true → p k (JValue.arr (xs ++ [v0])) = true)
    (container ui c2 : JObj) (hc : allFieldsF p container = true)
    (hu : allFieldsF p ui = true) (h : compactMerge container ui = Except.ok c2) :
    allFieldsF p c2 = true := by
  cases ui with
  | nil => simp [compactMerge] at h
  | cons q rest =>
      obtain ⟨key, v0⟩ := q
      simp only [allFieldsF, Bool.and_eq_true] at hu
      cases hg : objGet container key with
      | some w =>
          simp only [compactMerge, hg, Except.ok.injEq] at h
          subst h
          refine allFieldsF_objSet p container key _ hc (harr key v0 _ hu.1.1) ?_
          have hw := allFieldsF_objGet p container key w hc hg
          simp only [allFieldsV, allFieldsL_append, Bool.and_eq_true]
          exact ⟨allFieldsL_promoteList p w hw.2, by simp [allFieldsL, hu.1.2]⟩
      | none =>
          simp only [compactMerge, hg, Except.ok.injEq] at h
          subst h
          exact allFieldsF_objUpdate p container _ hc
            (by simp [allFieldsF, hu.1.1, hu.1.2, hu.2])

theorem parseChildrenCompact_good (p : String → JValue → Bool)
    (harr : ∀ (k : String) (v0 : JValue) (xs : List JValue),
      p k v0 = true → p k (JValue.arr (xs ++ [v0])) = true)
    (sc : Bool) (cs : List XmlNode)
    (hch : ∀ c ∈ cs, ∀ ui, parseelement c sc false true true = Except.ok ui →
      allFieldsF p ui = true) :
    ∀ container result, allFieldsF p container = true →
      parseChildrenCompact sc container cs = Except.ok result →
      allFieldsF p result = true := by
  induction cs with
  | nil =>
      intro container result hc h
      simp only [parseChildrenCompact, Except.ok.injEq] at h
      subst h
      exact hc
  | cons c rest ih =>
      intro container result hc h
      simp only [parseChildrenCompact] at h
      cases hp : parseelement c sc false true true with
      | error e => simp [hp] at h
      | ok ui =>
          simp only [hp] at h
          cases hm : compactMerge container ui with
          | error e => simp [hm] at h
          | ok c2 =>
              simp only [hm] at h
              have hui := hch c (by simp) ui hp
              have hc2 := compactMerge_good p harr container ui c2 hc hui hm
              exact ih (fun c3 hm3 ui3 hp3 => hch c3 (by simp [hm3]) ui3 hp3) c2 result hc2 h

theorem parseChildrenVerbose_good (p : String → JValue → Bool)
    (sc : Bool) (cs : List XmlNode)
    (hch : ∀ c ∈ cs, ∀ o, parseelement c sc false false true = Except.ok o →
      allFieldsF p o = true
      ∧ ∃ l2, objGet o "elements" = some (JValue.arr l2) ∧ l2 ≠ []) :
    ∀ ls, parseChildrenVerbose sc cs = Except.ok ls →
      allFieldsL p ls = true ∧ (cs ≠ [] → ls ≠ []) := by
  induction cs with
  | nil =>
      intro ls h
      simp only [parseChildrenVerbose, Except.ok.injEq] at h
      subst h
      exact ⟨rfl, fun hne => absurd rfl hne⟩
  | cons c rest ih =>
      intro ls h
      simp only [parseChildrenVerbose] at h
      cases hp : parseelement c sc false false true with
      | error e => simp [hp] at h
      | ok o =>
          simp only [hp] at h
          obtain ⟨ho, l2, hg2, hne2⟩ := hch c (by simp) o hp
          cases hg : objGet o "elements" with
          | none => rw [hg] at hg2; cases hg2
          | some v =>
              cases v with
              | arr l =>
                  simp only [hg] at h
                  obtain rfl : l = l2 := by
                    rw [hg] at hg2
                    simpa using hg2
                  cases hr : parseChildrenVerbose sc rest with
                  | error e => simp [hr] at h
                  | ok ls2 =>
                      simp only [hr, Except.ok.injEq] at h
                      subst h
                      have hrest := ih (fun c3 hm3 => hch c3 (by simp [hm3])) ls2 hr
                      refine ⟨?_, ?_⟩
                      · rw [allFieldsL_append]
                        have hl : allFieldsL p l = true := by
                          simpa [allFieldsV] using
                            (allFieldsF_objGet p o "elements" _ ho hg2).2
                        simp [hl, hrest.1]
                      · intro _
                        simp [hne2]
              | str s2 => rw [hg] at hg2; simp at hg2
              | obj f2 => rw [hg] at hg2; simp at hg2
              | exn m2 => rw [hg] at hg2; simp at hg2

theorem tagsAvoidList_mem (names : List String) (cs : List XmlNode)
    (h : tagsAvoidList names cs = true) (c : XmlNode) (hm : c ∈ cs) :
    tagsAvoid names c = true := by
  induction cs with
  | nil => cases hm
  | cons c2 rest ih =>
      simp only [tagsAvoidList, Bool.and_eq_true] at h
      rcases List.mem_cons.mp hm with rfl | hm2
      · exact h.1
      · exact ih h.2 hm2

theorem namesAvoidList_mem (names : List String) (cs : List XmlNode)
    (h : namesAvoidList names cs = true) (c : XmlNode) (hm : c ∈ cs) :
    namesAvoid names c = true := by
  induction cs with
  | nil => cases hm
  | cons c2 rest ih =>
      simp only [namesAvoidList, Bool.and_eq_true] at h
      rcases List.mem_cons.mp hm with rfl | hm2
      · exact h.1
      · exact ih h.2 hm2

theorem parse_leaf_structure (e : XmlNode) (he : (getchildren e).isEmpty = true)
    (sc hd cm rbt : Bool) (o : JObj) (h : parseelement e sc hd cm rbt = Except.ok o) :
    (tagsAvoid reservedKeys e = true → noEmptyReservedF o = true)
    ∧ (cm = false → ∃ l, objGet o "elements" = some (JValue.arr l) ∧ l ≠ [])
    ∧ (hd = false → namesAvoid declNames e = true → noDeclKeysF o = true) := by
  rw [parseelement] at h
  cases cm with
  | true =>
      simp only [he, eq_self_iff_true, if_true, dite_true] at h
      cases hl : leafelement e sc true true with
      | error er => simp [hl] at h
      | ok v =>
          simp only [hl, Except.ok.injEq] at h
          subst h
          refine ⟨?_, ?_, ?_⟩
          · intro ht
            exact allFieldsF_objUpdate _ _ _ (compactHeader_fields5 hd)
              (leafelement_fields5 e sc true true v ht hl)
          · intro hcm
            cases hcm
          · intro hhd ht
            subst hhd
            exact allFieldsF_objUpdate _ _ _ (by simp [allFieldsF, compactHeader])
              (leafelement_fields4 e sc true true v ht hl)
  | false =>
      simp only [he, eq_self_iff_true, if_true, dite_true, Bool.false_eq_true, if_false,
        Except.ok.injEq] at h
      subst h
      cases hl : leafelement e sc false true with
      | ok v =>
          simp only [hl]
          refine ⟨?_, ?_, ?_⟩
          · intro ht
            refine allFieldsF_objUpdate _ _ _ (verboseHeader_fields5 hd) ?_
            simp only [allFieldsF, Bool.and_eq_true]
            refine ⟨⟨pairNoEmpty_arr _ _ (by simp), ?_⟩, by simp [allFieldsF]⟩
            simp only [allFieldsV, allFieldsL, Bool.and_true]
            exact leafelement_fields5 e sc false true v ht hl
          · intro _
            rw [objUpdate_singleton]
            exact ⟨_, objGet_objSet_same _ _ _, by simp⟩
          · intro hhd ht
            subst hhd
            refine allFieldsF_objUpdate _ _ _ (by simp [allFieldsF, verboseHeader]) ?_
            simp only [allFieldsF, Bool.and_eq_true]
            refine ⟨⟨by simp [pairNoDecl, declNames], ?_⟩, by simp [allFieldsF]⟩
            simp only [allFieldsV, allFieldsL, Bool.and_true]
            exact leafelement_fields4 e sc false true v ht hl
      | error er =>
          simp only [hl]
          refine ⟨?_, ?_, ?_⟩
          · intro ht
            refine allFieldsF_objUpdate _ _ _ (verboseHeader_fields5 hd) ?_
            simp only [allFieldsF, Bool.and_eq_true]
            refine ⟨⟨pairNoEmpty_arr _ _ (by simp), ?_⟩, by simp [allFieldsF]⟩
            simp [allFieldsV, allFieldsL]
          · intro _
            rw [objUpdate_singleton]
            exact ⟨_, objGet_objSet_same _ _ _, by simp⟩
          · intro hhd ht
            subst hhd
            refine allFieldsF_objUpdate _ _ _ (by simp [allFieldsF, verboseHeader]) ?_
            simp only [allFieldsF, Bool.and_eq_true]
            refine ⟨⟨by simp [pairNoDecl, declNames], ?_⟩, by simp [allFieldsF]⟩
            simp [allFieldsV, allFieldsL]

/-- Structural invariants of every successful conversion: with reserved
tag names avoided no optional key is bound to an empty value; the
verbose output always carries a nonempty top-level elements sequence;
and with headers off and declaration names avoided no declaration key
appears anywhere. -/
theorem parse_structure_main : ∀ e : XmlNode, ∀ sc hd cm rbt : Bool, ∀ o : JObj,
    parseelement e sc hd cm rbt = Except.ok o →
    ((tagsAvoid reservedKeys e = true → noEmptyReservedF o = true)
    ∧ (cm = false → ∃ l, objGet o "elements" = some (JValue.arr l) ∧ l ≠ [])
    ∧ (hd = false → namesAvoid declNames e = true → noDeclKeysF o = true)) := by
  refine xmlnode_ind (fun e => ∀ sc hd cm rbt o,
    parseelement e sc hd cm rbt = Except.ok o →
    ((tagsAvoid reservedKeys e = true → noEmptyReservedF o = true)
    ∧ (cm = false → ∃ l, objGet o "elements" = some (JValue.arr l) ∧ l ≠ [])
    ∧ (hd = false → namesAvoid declNames e = true → noDeclKeysF o = true)))
    ?_ ?_ ?_
  · intro tag attrib runs raw cs IH sc hd cm rbt o h
    cases hch : cs.isEmpty with
    | true => exact parse_leaf_structure _ (by simp [getchildren, hch]) sc hd cm rbt o h
    | false =>
        rw [parseelement] at h
        simp only [getchildren, tagOf, attribOf, hch, Bool.false_eq_true, dite_false] at h
        cases cm with
        | true =>
            simp only [eq_self_iff_true, if_true] at h
            cases hpc : parseChildrenCompact sc
                (compactContainer0 attrib
                  (xml_text_compact (XmlNode.elem tag attrib runs raw cs) sc rbt)) cs with
            | error er => simp [hpc] at h
            | ok result =>
                simp only [hpc, Except.ok.injEq] at h
                subst h
                refine ⟨?_, ?_, ?_⟩
                · intro ht
                  simp only [tagsAvoid, Bool.and_eq_true] at ht
                  have hcont : allFieldsF pairNoEmpty (compactContainer0 attrib
                      (xml_text_compact (XmlNode.elem tag attrib runs raw cs) sc rbt)) = true := by
                    refine compactContainer0_fields pairNoEmpty attrib _ ?_ ?_ ?_
                    · intro ha
                      simp [pairNoEmpty, isEmptyish_attribObj attrib ha]
                    · exact fun q _ => pairNoEmpty_str q.1 q.2
                    · intro t htt
                      exact xml_text_compact_fields pairNoEmpty
                        (fun ts hne => pairNoEmpty_collapse _ ts hne)
                        (fun ts hne => pairNoEmpty_collapse _ ts hne) _ _ _ t htt
                  have hres : allFieldsF pairNoEmpty result = true := by
                    refine parseChildrenCompact_good pairNoEmpty ?_ sc cs ?_ _ result hcont hpc
                    · intro k v0 xs _
                      exact pairNoEmpty_arr k (xs ++ [v0]) (by simp)
                    · intro c hm ui hp
                      have htc : tagsAvoid reservedKeys c = true :=
                        tagsAvoidList_mem reservedKeys cs ht.2 c hm
                      exact (IH c hm sc false true true ui hp).1 htc
                  refine allFieldsF_objSet pairNoEmpty _ tag _ (compactHeader_fields5 hd) ?_ ?_
                  · simp only [pairNoEmpty, ht.1, Bool.true_or]
                  · simpa [allFieldsV] using hres
                · intro hcm
                  cases hcm
                · intro hhd ht
                  subst hhd
                  simp only [namesAvoid, Bool.and_eq_true, List.all_eq_true] at ht
                  have hcont : allFieldsF pairNoDecl (compactContainer0 attrib
                      (xml_text_compact (XmlNode.elem tag attrib runs raw cs) sc rbt)) = true := by
                    refine compactContainer0_fields pairNoDecl attrib _ ?_ ?_ ?_
                    · intro _
                      simp [pairNoDecl, declNames]
                    · intro q hq
                      simpa [pairNoDecl] using ht.1.2 q hq
                    · intro t htt
                      exact xml_text_compact_fields pairNoDecl
                        (fun ts _ => by simp [pairNoDecl, declNames])
                        (fun ts _ => by simp [pairNoDecl, declNames]) _ _ _ t htt
                  have hres : allFieldsF pairNoDecl result = true := by
                    refine parseChildrenCompact_good pairNoDecl
                      (fun k v0 xs hk => hk) sc cs ?_ _ result hcont hpc
                    intro c hm ui hp
                    have htc : namesAvoid declNames c = true :=
                      namesAvoidList_mem declNames cs ht.2 c hm
                    exact (IH c hm sc false true true ui hp).2.2 rfl htc
                  refine allFieldsF_objSet pairNoDecl _ tag _ (by simp [allFieldsF, compactHeader]) ?_ ?_
                  · simpa [pairNoDecl] using ht.1.1
                  · simpa [allFieldsV] using hres
        | false =>
            simp only [Bool.false_eq_true, if_false] at h
            cases hpv : parseChildrenVerbose sc cs with
            | error er => simp [hpv] at h
            | ok els =>
                simp only [hpv, Except.ok.injEq] at h
                subst h
                have hne : cs ≠ [] := by
                  intro hnil
                  simp [hnil] at hch
                refine ⟨?_, ?_, ?_⟩
                · intro ht
                  simp only [tagsAvoid, Bool.and_eq_true] at ht
                  have hloop := parseChildrenVerbose_good pairNoEmpty sc cs ?_ els hpv
                  · refine allFieldsF_objUpdate _ _ _ (verboseHeader_fields5 hd) ?_
                    simp only [allFieldsF, Bool.and_eq_true]
                    refine ⟨⟨pairNoEmpty_arr _ _ (by simp), ?_⟩, by simp [allFieldsF]⟩
                    simp only [allFieldsV, allFieldsL, Bool.and_true]
                    refine allFieldsF_objUpdate _ _ _ ?_ ?_
                    · refine verboseWrapper0_fields pairNoEmpty tag attrib
                        (pairNoEmpty_str _ _) (pairNoEmpty_str _ _) ?_
                        (fun q _ => pairNoEmpty_str q.1 q.2)
                      intro ha
                      simp [pairNoEmpty, isEmptyish_attribObj attrib ha]
                    · simp only [allFieldsF, Bool.and_eq_true]
                      have hseedels : (verboseTextSeed (xml_text_verbose
                          (XmlNode.elem tag attrib runs raw cs) sc rbt) ++ els).isEmpty = false := by
                        have : els ≠ [] := hloop.2 hne
                        cases els with
                        | nil => exact absurd rfl this
                        | cons x xs => simp
                      refine ⟨⟨pairNoEmpty_arr _ _ hseedels, ?_⟩, by simp [allFieldsF]⟩
                      simp only [allFieldsV, allFieldsL_append, Bool.and_eq_true]
                      refine ⟨?_, hloop.1⟩
                      exact verboseTextSeed_fields pairNoEmpty
                        (fun s => pairNoEmpty_str _ _) (fun s => pairNoEmpty_str _ _)
                        (fun s => pairNoEmpty_str _ _) _ _ _
                  · intro c hm oc hp
                    have htc : tagsAvoid reservedKeys c = true :=
                      tagsAvoidList_mem reservedKeys cs ht.2 c hm
                    exact ⟨(IH c hm sc false false true oc hp).1 htc,
                      (IH c hm sc false false true oc hp).2.1 rfl⟩
                · intro _
                  rw [objUpdate_singleton]
                  exact ⟨_, objGet_objSet_same _ _ _, by simp⟩
                · intro hhd ht
                  subst hhd
                  simp only [namesAvoid, Bool.and_eq_true, List.all_eq_true] at ht
                  have hloop := parseChildrenVerbose_good pairNoDecl sc cs ?_ els hpv
                  · refine allFieldsF_objUpdate _ _ _ (by simp [allFieldsF, verboseHeader]) ?_
                    simp only [allFieldsF, Bool.and_eq_true]
                    refine ⟨⟨by simp [pairNoDecl, declNames], ?_⟩, by simp [allFieldsF]⟩
                    simp only [allFieldsV, allFieldsL, Bool.and_true]
                    refine allFieldsF_objUpdate _ _ _ ?_ ?_
                    · refine verboseWrapper0_fields pairNoDecl tag attrib
                        (by simp [pairNoDecl, declNames]) (by simp [pairNoDecl, declNames]) ?_ ?_
                      · intro _
                        simp [pairNoDecl, declNames]
                      · intro q hq
                        simpa [pairNoDecl] using ht.1.2 q hq
                    · simp only [allFieldsF, Bool.and_eq_true]
                      refine ⟨⟨by simp [pairNoDecl, declNames], ?_⟩, by simp [allFieldsF]⟩
                      simp only [allFieldsV, allFieldsL_append, Bool.and_eq_true]
                      refine ⟨?_, hloop.1⟩
                      exact verboseTextSeed_fields pairNoDecl
                        (fun s => by simp [pairNoDecl, declNames])
                        (fun s => by simp [pairNoDecl, declNames])
                        (fun s => by simp [pairNoDecl, declNames]) _ _ _
                  · intro c hm oc hp
                    have htc : namesAvoid declNames c = true :=
                      namesAvoidList_mem declNames cs ht.2 c hm
                    exact ⟨(IH c hm sc false false true oc hp).2.2 rfl htc,
                      (IH c hm sc false false true oc hp).2.1 rfl⟩
  · intro s sc hd cm rbt o h
    exact parse_leaf_structure _ (by simp [getchildren]) sc hd cm rbt o h
  · intro w a sc hd cm rbt o h
    exact parse_leaf_structure _ (by simp [getchildren]) sc hd cm rbt o h

/-- C5 (amended): for every node in which no element tag is one of the
optional key names attributes, elements, _attributes, _text, _cdata,
and every setting of the flags, no mapping produced by a successful
conversion binds one of these keys to an empty sequence or empty
mapping: each such key is omitted entirely when its content is empty.
Compact mode keys entries by raw tag name, so an element tagged with
one of these names can itself produce such a binding (see the
counterexample), which is the only correction to the claim. -/
theorem no_empty_optional_fields (e : XmlNode) (sc hd cm rbt : Bool) (o : JObj)
    (ht : tagsAvoid reservedKeys e = true)
    (h : parseelement e sc hd cm rbt = Except.ok o) :
    noEmptyReservedF o = true :=
  (parse_structure_main e sc hd cm rbt o h).1 ht

/-- C5 counterexample: converting an element whose tag is literally the
word elements in compact mode produces a mapping that binds the key
elements to an empty mapping, so the claim as stated over all nodes
fails. -/
theorem no_empty_optional_fields_cex :
    parseelement (XmlNode.elem "elements" [] [] "<elements/>" []) false false true true =
      Except.ok [("elements", JValue.obj [])]
    ∧ noEmptyReservedF [("elements", JValue.obj [])] = false := by
  constructor
  · simp only [parseelement, getchildren]
    rfl
  · simp [noEmptyReservedF, allFieldsF, pairNoEmpty, reservedKeys, isEmptyish]

/-- Witness for C5 on a concrete document with an attribute, a childless
child and the header on. -/
theorem no_empty_optional_fields_example :
    parseelement (XmlNode.elem "root" [("a", "1")] [] "<root><b/></root>"
        [XmlNode.elem "b" [] [] "<b/>" []]) false true true true =
      Except.ok [("_declaration", JValue.obj [("_attributes", JValue.obj
          [("version", JValue.str "1.0"), ("encoding", JValue.str "ISO-8859-1")])]),
        ("root", JValue.obj [("_attributes", JValue.obj [("a", JValue.str "1")]),
          ("b", JValue.obj [])])]
    ∧ noEmptyReservedF [("_declaration", JValue.obj [("_attributes", JValue.obj
          [("version", JValue.str "1.0"), ("encoding", JValue.str "ISO-8859-1")])]),
        ("root", JValue.obj [("_attributes", JValue.obj [("a", JValue.str "1")]),
          ("b", JValue.obj [])])] = true := by
  have h1 : parseelement (XmlNode.elem "root" [("a", "1")] [] "<root><b/></root>"
      [XmlNode.elem "b" [] [] "<b/>" []]) false true true true =
      Except.ok [("_declaration", JValue.obj [("_attributes", JValue.obj
          [("version", JValue.str "1.0"), ("encoding", JValue.str "ISO-8859-1")])]),
        ("root", JValue.obj [("_attributes", JValue.obj [("a", JValue.str "1")]),
          ("b", JValue.obj [])])] := by
    simp only [parseelement, parseChildrenCompact, getchildren]
    rfl
  refine ⟨h1, no_empty_optional_fields _ false true true true _ ?_ h1⟩
  simp [tagsAvoid, tagsAvoidList, reservedKeys]

/-- The head of an ordered mapping survives updates that never touch its
key. -/
theorem objUpdate_head_ne (k0 : String) (h0 : JValue) (rest u : JObj)
    (h : ∀ q ∈ u, q.1 ≠ k0) :
    ∃ rest2, objUpdate ((k0, h0) :: rest) u = (k0, h0) :: rest2 := by
  induction u generalizing rest with
  | nil => exact ⟨rest, rfl⟩
  | cons q u2 ih =>
      obtain ⟨k, v⟩ := q
      rw [objUpdate_cons]
      have hk : k0 ≠ k := Ne.symm (h (k, v) (by simp))
      simp only [objSet, if_neg hk]
      exact ih (objSet rest k v) (fun q hq => h q (by simp [hq]))

/-- The top-level keys of a compact leaf conversion: the element tag, or
the fixed comment and PI keys; none of them is the compact declaration
key when the tag is not. -/
theorem leafelement_keys_ne_decl (e : XmlNode) (sc rbt : Bool) (v : JObj)
    (ht : tagOf e ≠ "_declaration")
    (h : leafelement e sc true rbt = Except.ok v) :
    ∀ q ∈ v, q.1 ≠ "_declaration" := by
  cases e with
  | pi raw attrib =>
      simp only [leafelement, getchildren, List.isEmpty_nil, Bool.not_true,
        Bool.false_eq_true, if_false, eq_self_iff_true, if_true, Except.ok.injEq] at h
      subst h
      cases ha : attrib.isEmpty with
      | true =>
          simp only [ha, if_true]
          intro q hq
          simp only [List.mem_singleton] at hq
          subst hq
          simp
      | false =>
          simp only [ha, if_false, Bool.false_eq_true, objUpdate_singleton]
          rw [objSet_fresh _ _ _ (by simp [objGet])]
          intro q hq
          rcases List.mem_append.mp hq with h1 | h2
          · simp only [List.mem_singleton] at h1
            subst h1
            simp
          · simp only [List.mem_singleton] at h2
            subst h2
            simp
  | comment s =>
      simp only [leafelement, getchildren, List.isEmpty_nil, Bool.not_true,
        Bool.false_eq_true, if_false, eq_self_iff_true, if_true, Except.ok.injEq] at h
      subst h
      intro q hq
      simp only [List.mem_singleton] at hq
      subst hq
      simp
  | elem tag attrib runs raw cs =>
      cases hch : cs.isEmpty with
      | false => simp [leafelement, getchildren, hch] at h
      | true =>
          simp only [leafelement, getchildren, hch, Bool.not_true, Bool.false_eq_true,
            if_false, if_true, Except.ok.injEq] at h
          subst h
          intro q hq
          simp only [List.mem_singleton] at hq
          subst hq
          simpa [tagOf] using ht

/-- C4 (amended): with header on, the conversion result begins with the
fixed declaration envelope carrying exactly the hardcoded version and
encoding, independent of the input document — in compact mode provided
the root tag is not itself the compact declaration key (an element of
that name overwrites the envelope entry, see the counterexample), and
in verbose mode unconditionally; recursive calls pass header off, and
with header off a document whose tags and attribute names avoid the
declaration key names produces no declaration key anywhere in its
output. -/
theorem header_envelope_rule (e : XmlNode) (sc rbt : Bool) :
    (∀ o : JObj, tagOf e ≠ "_declaration" →
      parseelement e sc true true rbt = Except.ok o →
      o.head? = some ("_declaration", JValue.obj [("_attributes", JValue.obj
        [("version", JValue.str "1.0"), ("encoding", JValue.str "ISO-8859-1")])]))
    ∧ (∀ o : JObj, parseelement e sc true false rbt = Except.ok o →
      o.head? = some ("declaration", JValue.obj [("attributes", JValue.obj
        [("version", JValue.str "1.0"), ("encoding", JValue.str "ISO-8859-1")])]))
    ∧ (∀ (cm : Bool) (o : JObj), namesAvoid declNames e = true →
      parseelement e sc false cm rbt = Except.ok o →
      noDeclKeysF o = true) := by
  refine ⟨?_, ?_, ?_⟩
  · intro o hne h
    rw [parseelement] at h
    by_cases hch : (getchildren e).isEmpty = true
    · simp only [hch, eq_self_iff_true, if_true, dite_true] at h
      cases hl : leafelement e sc true true with
      | error er => simp [hl] at h
      | ok v =>
          simp only [hl, Except.ok.injEq] at h
          subst h
          have hk := leafelement_keys_ne_decl e sc true v hne hl
          have hu := objUpdate_head_ne "_declaration"
            (JValue.obj [("_attributes", JValue.obj
              [("version", JValue.str "1.0"), ("encoding", JValue.str "ISO-8859-1")])])
            [] v hk
          obtain ⟨rest2, hr⟩ := hu
          simp only [compactHeader, if_true]
          rw [hr]
          rfl
    · simp only [hch, Bool.false_eq_true, dite_false, eq_self_iff_true, if_true] at h
      cases hpc : parseChildrenCompact sc (compactContainer0 (attribOf e)
          (xml_text_compact e sc rbt)) (getchildren e) with
      | error er => simp [hpc] at h
      | ok result =>
          simp only [hpc, Except.ok.injEq] at h
          subst h
          simp only [compactHeader, if_true, objSet, if_neg (Ne.symm hne)]
          rfl
  · intro o h
    rw [parseelement] at h
    by_cases hch : (getchildren e).isEmpty = true
    · simp only [hch, eq_self_iff_true, if_true, dite_true, Bool.false_eq_true, if_false,
        Except.ok.injEq] at h
      subst h
      simp [verboseHeader, objUpdate_singleton, objSet,
        (by decide : ¬("declaration" : String) = "elements")]
    · simp only [hch, Bool.false_eq_true, dite_false, if_false] at h
      cases hpv : parseChildrenVerbose sc (getchildren e) with
      | error er => simp [hpv] at h
      | ok els =>
          simp only [hpv, Except.ok.injEq] at h
          subst h
          simp [verboseHeader, objUpdate_singleton, objSet,
            (by decide : ¬("declaration" : String) = "elements")]
  · intro cm o ht h
    exact (parse_structure_main e sc false cm rbt o h).2.2 rfl ht

/-- C4 counterexample: a root element literally tagged with the compact
declaration key overwrites the envelope entry, so the result does not
begin with the fixed declaration attributes. -/
theorem header_envelope_cex :
    parseelement (XmlNode.elem "_declaration" [] [] "<_declaration/>" []) false true true true =
      Except.ok [("_declaration", JValue.obj [])]
    ∧ JValue.obj ([] : List (String × JValue)) ≠ JValue.obj
        [("_attributes", JValue.obj [("version", JValue.str "1.0"),
          ("encoding", JValue.str "ISO-8859-1")])] := by
  constructor
  · simp only [parseelement, getchildren]
    rfl
  · simp

/-- Witness for C4: on a plain childless root the compact result begins
with the envelope, and with header off the output of the same document
contains no declaration key anywhere. -/
theorem header_envelope_rule_example :
    ([("_declaration", JValue.obj [("_attributes", JValue.obj
        [("version", JValue.str "1.0"), ("encoding", JValue.str "ISO-8859-1")])]),
      ("a", JValue.obj [])] : JObj).head? =
      some ("_declaration", JValue.obj [("_attributes", JValue.obj
        [("version", JValue.str "1.0"), ("encoding", JValue.str "ISO-8859-1")])])
    ∧ noDeclKeysF [("a", JValue.obj [])] = true := by
  have h1 : parseelement (XmlNode.elem "a" [] [] "<a/>" []) false true true true =
      Except.ok [("_declaration", JValue.obj [("_attributes", JValue.obj
          [("version", JValue.str "1.0"), ("encoding", JValue.str "ISO-8859-1")])]),
        ("a", JValue.obj [])] := by
    simp only [parseelement, getchildren]
    rfl
  have h2 : parseelement (XmlNode.elem "a" [] [] "<a/>" []) false false true true =
      Except.ok [("a", JValue.obj [])] := by
    simp only [parseelement, getchildren]
    rfl
  refine ⟨(header_envelope_rule (XmlNode.elem "a" [] [] "<a/>" []) false true).1 _
      (by decide) h1,
    (header_envelope_rule (XmlNode.elem "a" [] [] "<a/>" []) false true).2.2 true _
      (by simp [namesAvoid, namesAvoidList, declNames]) h2⟩

end Xml2JS
